import Mathlib

/-!
Shallow embedding of the posting-time scorer (`src/scheduler.py`,
class `PostingScheduler`) over exact rationals.

Modelling conventions:
* Python floats are modelled as `ℚ` (exact arithmetic idealization).
* A slot dict is the structure `TimeSlot`; the `score` key is absent
  until the scoring loop writes it, hence `score : Option ℚ`.
* An engagement-history dict may miss the keys `hour_of_day` /
  `estimated_engagement`; a missing key is `none`.  `pandas` turns a
  missing value of an existing column into NaN, which fails every
  comparison and is skipped by `mean`; a column that no record supplies
  does not exist at all and raising `KeyError` lands in the
  `except` branch returning `0.5`.
* `datetime.now().hour` is an explicit parameter `current_hour`.
* `random.uniform(-0.05, 0.05)` is an explicit per-slot draw
  `jitter : ℕ → ℚ`, indexed by the slot's position in catalog order.
* The Python method `_initialize_time_slots` is spelled
  `init_time_slots` here.
-/

/-- One slot dict of the 42-slot catalog.  `score` is `none` until a
scoring call stores it. -/
structure TimeSlot where
  day : String
  time_range : String
  start_hour : ℤ
  base_engagement : ℚ
  sentiment_adjustment : ℚ
  score : Option ℚ
deriving Repr, DecidableEq

/-- One engagement-history dict.  Either required key may be missing. -/
structure EngagementRecord where
  hour_of_day : Option ℤ
  estimated_engagement : Option ℚ
deriving Repr, DecidableEq

/-- One formatted result record of `calculate_optimal_times`. -/
structure ResultSlot where
  day : String
  time : String
  score : ℚ
  recommendation : String
deriving Repr, DecidableEq

namespace PostingScheduler

/-- `_calculate_base_score` of `scheduler.py`. -/
def calculate_base_score (day : String) (start_hour : ℤ) : ℚ :=
  let base : ℚ :=
    if day = "Tuesday" ∨ day = "Wednesday" ∨ day = "Thursday" then 0.7
    else if day = "Monday" ∨ day = "Friday" then 0.6
    else 0.5
  let base :=
    if 9 ≤ start_hour ∧ start_hour ≤ 11 then base + 0.15
    else if 13 ≤ start_hour ∧ start_hour ≤ 15 then base + 0.10
    else if 19 ≤ start_hour ∧ start_hour ≤ 21 then base + 0.05
    else base
  min base 0.95

def days : List String :=
  ["Monday", "Tuesday", "Wednesday", "Thursday", "Friday", "Saturday", "Sunday"]

def time_ranges : List (String × String × ℤ) :=
  [("09:00", "11:00", 9), ("11:00", "13:00", 11), ("13:00", "15:00", 13),
   ("15:00", "17:00", 15), ("17:00", "19:00", 17), ("19:00", "21:00", 19)]

/-- The catalog built by the slot-construction method of
`scheduler.py` (see the naming note in the header).  The start hour
parsed by `int(start.split(':')[0])` is carried explicitly as the
third component of each `time_ranges` entry. -/
def init_time_slots : List TimeSlot :=
  days.flatMap fun day =>
    time_ranges.map fun tr =>
      { day := day
        time_range := tr.1 ++ "-" ++ tr.2.1
        start_hour := tr.2.2
        base_engagement := calculate_base_score day tr.2.2
        sentiment_adjustment := 0.0
        score := none }

/-- The row filter `df[abs(df['hour_of_day'] - current_hour) <= 2]`:
a NaN entry (record without the key) compares false and is dropped. -/
def similar_times_of (current_hour : ℤ)
    (engagement_history : List EngagementRecord) : List EngagementRecord :=
  engagement_history.filter fun r =>
    match r.hour_of_day with
    | some h => |h - current_hour| ≤ 2
    | none => false

/-- `_calculate_history_adjustment` of `scheduler.py`, with the pandas
semantics spelled out.  The result `none` models the NaN produced when
the 2-hour window is nonempty but every record in it is missing
`estimated_engagement` (mean of an all-NaN column). -/
def calculate_history_adjustment (current_hour : ℤ)
    (engagement_history : List EngagementRecord) : Option ℚ :=
  if engagement_history = [] then some 0.0
  else if ¬ engagement_history.any (fun r => r.hour_of_day.isSome) then
    -- `df['hour_of_day']` raises `KeyError`: the column exists only if
    -- some record supplies the key; the `except` branch returns 0.5.
    some 0.5
  else
    let similar_times := similar_times_of current_hour engagement_history
    if similar_times = [] then some 0.5
    else if ¬ engagement_history.any (fun r => r.estimated_engagement.isSome) then
      -- `similar_times['estimated_engagement']` raises `KeyError` when
      -- no record at all supplies the key; again the 0.5 fallback.
      some 0.5
    else
      -- `.mean()` skips NaN entries; if every value in the window is
      -- NaN the mean itself is NaN.
      let vals := similar_times.filterMap fun r => r.estimated_engagement
      if vals = [] then none
      else some (vals.sum / vals.length)

/-- The score the loop body stores in `slot['score']`:
`max(0.1, min(0.99, final_score))`.  When `history_adjustment` is NaN
(`none`), `final_score` is NaN and Python's `min(0.99, nan)` returns
`0.99`, then `max(0.1, 0.99) = 0.99`. -/
def stored_score (base_engagement sentiment_adjustment : ℚ)
    (history_adjustment : Option ℚ) (j : ℚ) : ℚ :=
  match history_adjustment with
  | some h =>
      max 0.1 (min 0.99
        (base_engagement * 0.6 + sentiment_adjustment * 0.3 + h * 0.1 + j))
  | none => 0.99

/-- The `for slot in recommended_slots:` loop.  The list was obtained by
`self.time_slots.copy()` — a shallow copy — so this very list of
(mutated) dicts is also the post-call content of `self.time_slots`. -/
def score_slots (sentiment_adjustment : ℚ) (history_adjustment : Option ℚ)
    (jitter : ℕ → ℚ) : ℕ → List TimeSlot → List TimeSlot
  | _, [] => []
  | i, slot :: rest =>
      { slot with
        score := some (stored_score slot.base_engagement sentiment_adjustment
          history_adjustment (jitter i))
        sentiment_adjustment := sentiment_adjustment }
        :: score_slots sentiment_adjustment history_adjustment jitter (i + 1) rest

/-- `slot['score']` read back after the loop (always present there). -/
def slot_score (slot : TimeSlot) : ℚ := slot.score.getD 0

/-- `_get_recommendation_text` of `scheduler.py`. -/
def get_recommendation_text (score : ℚ) : String :=
  if score ≥ 0.8 then "Excellent time to post - high expected engagement"
  else if score ≥ 0.7 then "Good time to post - above average engagement expected"
  else if score ≥ 0.6 then "Moderate time - average engagement expected"
  else "Lower priority - consider other time slots first"

/-- Python's `round` ties-to-even on an integer target. -/
def round_half_even (q : ℚ) : ℤ :=
  let f := ⌊q⌋
  if q - f < 1/2 then f
  else if q - f > 1/2 then f + 1
  else if f % 2 = 0 then f else f + 1

/-- `round(x, 3)`. -/
def round3 (q : ℚ) : ℚ := (round_half_even (q * 1000) : ℚ) / 1000

/-- The comparator realised by
`recommended_slots.sort(key=lambda x: x['score'], reverse=True)`:
a stable sort, descending by score. -/
def score_ge (a b : TimeSlot) : Bool := decide (slot_score b ≤ slot_score a)

/-- `history_adjustment` as set up by lines 91–93: `0.0` unless the
history is truthy, else the helper's value. -/
def history_adjustment_of (current_hour : ℤ)
    (engagement_history : List EngagementRecord) : Option ℚ :=
  if engagement_history = [] then some 0.0
  else calculate_history_adjustment current_hour engagement_history

/-- The 42 slot dicts after the scoring loop of a call on state
`time_slots`: because the copy is shallow, this is both the list being
sorted and the post-call content of `self.time_slots` (in original
order). -/
def scored_slots (time_slots : List TimeSlot) (sentiment_results : Option ℚ)
    (engagement_history : List EngagementRecord) (current_hour : ℤ)
    (jitter : ℕ → ℚ) : List TimeSlot :=
  let overall_sentiment := sentiment_results.getD 0
  let sentiment_adjustment := overall_sentiment * 0.2
  score_slots sentiment_adjustment
    (history_adjustment_of current_hour engagement_history) jitter 0 time_slots

/-- `calculate_optimal_times` of `scheduler.py`.  `sentiment_results`
is reduced to its `overall_sentiment` entry (`none` = key absent, as
read by `.get('overall_sentiment', 0)`).  Returns the formatted top-5
list together with the post-call `self.time_slots` (the shallow copy
shares the slot dicts, so the stored template is the mutated list). -/
def calculate_optimal_times (time_slots : List TimeSlot)
    (sentiment_results : Option ℚ) (engagement_history : List EngagementRecord)
    (current_hour : ℤ) (jitter : ℕ → ℚ) : List ResultSlot × List TimeSlot :=
  let recommended_slots :=
    scored_slots time_slots sentiment_results engagement_history current_hour jitter
  let sorted_slots := recommended_slots.mergeSort score_ge
  let top_slots := (sorted_slots.take 5).map fun slot =>
    { day := slot.day
      time := slot.time_range
      score := round3 (slot_score slot)
      recommendation := get_recommendation_text (slot_score slot) }
  (top_slots, recommended_slots)

end PostingScheduler


namespace PostingScheduler

/-- Day-of-week base, following the spec's words: midweek (Tue/Wed/Thu)
0.7; Mon/Fri 0.6; weekend 0.5. -/
def specDayBase (day : String) : ℚ :=
  if day = "Tuesday" ∨ day = "Wednesday" ∨ day = "Thursday" then 0.7
  else if day = "Monday" ∨ day = "Friday" then 0.6
  else 0.5

/-- Time-of-day bonus, following the spec's words: +0.15 for start hour
in [9,11]; +0.10 for [13,15]; +0.05 for [19,21]; +0.0 otherwise. -/
def specTimeBonus (hour : ℤ) : ℚ :=
  if 9 ≤ hour ∧ hour ≤ 11 then 0.15
  else if 13 ≤ hour ∧ hour ≤ 15 then 0.10
  else if 19 ≤ hour ∧ hour ≤ 21 then 0.05
  else 0

def valid_days : List String :=
  ["Monday", "Tuesday", "Wednesday", "Thursday", "Friday", "Saturday", "Sunday"]

def valid_times : List String :=
  ["09:00-11:00", "11:00-13:00", "13:00-15:00", "15:00-17:00", "17:00-19:00",
   "19:00-21:00"]

lemma score_slots_length (sa : ℚ) (ha : Option ℚ) (jitter : ℕ → ℚ) :
    ∀ (k : ℕ) (l : List TimeSlot), (score_slots sa ha jitter k l).length = l.length := by
  intro k l
  induction l generalizing k with
  | nil => rfl
  | cons slot rest ih => simp [score_slots, ih]

lemma score_slots_getElem? (sa : ℚ) (ha : Option ℚ) (jitter : ℕ → ℚ) :
    ∀ (k : ℕ) (l : List TimeSlot) (i : ℕ),
      (score_slots sa ha jitter k l)[i]? = l[i]?.map fun slot =>
        { slot with
          score := some (stored_score slot.base_engagement sa ha (jitter (k + i)))
          sentiment_adjustment := sa } := by
  intro k l
  induction l generalizing k with
  | nil => intro i; simp [score_slots]
  | cons slot rest ih =>
      intro i
      cases i with
      | zero => simp [score_slots]
      | succ i =>
          simp only [score_slots, List.getElem?_cons_succ]
          rw [ih (k + 1)]
          have h1 : (k + 1) + i = k + (i + 1) := by omega
          rw [h1]

lemma score_slots_mem {sa : ℚ} {ha : Option ℚ} {jitter : ℕ → ℚ}
    {k : ℕ} {l : List TimeSlot} {slot : TimeSlot}
    (h : slot ∈ score_slots sa ha jitter k l) :
    ∃ t ∈ l, ∃ n : ℕ,
      slot = { t with
               score := some (stored_score t.base_engagement sa ha (jitter n))
               sentiment_adjustment := sa } := by
  induction l generalizing k with
  | nil => simp [score_slots] at h
  | cons t rest ih =>
      rw [score_slots, List.mem_cons] at h
      rcases h with h | h
      · exact ⟨t, List.mem_cons_self t rest, k, h⟩
      · obtain ⟨t', ht', n, hn⟩ := ih h
        exact ⟨t', List.mem_cons_of_mem _ ht', n, hn⟩

lemma score_slots_forall₂ (sa : ℚ) (ha : Option ℚ) (jitter : ℕ → ℚ) :
    ∀ (k : ℕ) (l : List TimeSlot),
      List.Forall₂ (fun t p => p.day = t.day ∧ p.time_range = t.time_range ∧
          p.start_hour = t.start_hour ∧ p.base_engagement = t.base_engagement ∧
          p.sentiment_adjustment = sa ∧ p.score.isSome = true)
        l (score_slots sa ha jitter k l) := by
  intro k l
  induction l generalizing k with
  | nil => exact List.Forall₂.nil
  | cons t rest ih =>
      exact List.Forall₂.cons ⟨rfl, rfl, rfl, rfl, rfl, rfl⟩ (ih (k + 1))

lemma stored_score_bounds (b sa : ℚ) (ha : Option ℚ) (j : ℚ) :
    0.1 ≤ stored_score b sa ha j ∧ stored_score b sa ha j ≤ 0.99 := by
  cases ha with
  | none => norm_num [stored_score]
  | some h =>
      refine ⟨le_max_left _ _, max_le (by norm_num) (min_le_left _ _)⟩

lemma round_half_even_ge_floor (q : ℚ) : ⌊q⌋ ≤ round_half_even q := by
  simp only [round_half_even]
  split_ifs <;> omega

lemma round_half_even_le_floor_add_one (q : ℚ) :
    round_half_even q ≤ ⌊q⌋ + 1 := by
  simp only [round_half_even]
  split_ifs <;> omega

lemma round_half_even_le {q : ℚ} {n : ℤ} (h : q ≤ (n : ℚ)) :
    round_half_even q ≤ n := by
  have hfl : ⌊q⌋ ≤ n := by
    have := Int.floor_le_floor h
    simpa using this
  rcases lt_or_eq_of_le hfl with hlt | heq
  · have := round_half_even_le_floor_add_one q
    omega
  · have hq : (n : ℚ) ≤ q := by
      have := Int.floor_le q
      rw [heq] at this
      exact this
    have hqn : q = (n : ℚ) := le_antisymm h hq
    simp only [round_half_even]
    rw [if_pos]
    · exact hfl
    · rw [hqn, Int.floor_intCast]
      norm_num

lemma round_half_even_ge {q : ℚ} {n : ℤ} (h : (n : ℚ) ≤ q) :
    n ≤ round_half_even q :=
  le_trans (Int.le_floor.mpr h) (round_half_even_ge_floor q)

lemma round3_bounds {q : ℚ} (h1 : 0.1 ≤ q) (h2 : q ≤ 0.99) :
    0.1 ≤ round3 q ∧ round3 q ≤ 0.99 := by
  have l1 : (100 : ℤ) ≤ round_half_even (q * 1000) :=
    round_half_even_ge (by push_cast; linarith)
  have l2 : round_half_even (q * 1000) ≤ (990 : ℤ) :=
    round_half_even_le (by push_cast; linarith)
  have c1 : (100 : ℚ) ≤ (round_half_even (q * 1000) : ℚ) := by exact_mod_cast l1
  have c2 : ((round_half_even (q * 1000) : ℚ)) ≤ 990 := by exact_mod_cast l2
  constructor <;> (simp only [round3]) <;> (norm_num; linarith)

lemma round_half_even_mono {a b : ℚ} (h : a ≤ b) :
    round_half_even a ≤ round_half_even b := by
  rcases lt_or_le ⌊a⌋ ⌊b⌋ with hf | hf
  · calc round_half_even a ≤ ⌊a⌋ + 1 := round_half_even_le_floor_add_one a
      _ ≤ ⌊b⌋ := by omega
      _ ≤ round_half_even b := round_half_even_ge_floor b
  · have hfeq : ⌊b⌋ = ⌊a⌋ := le_antisymm hf (Int.floor_le_floor h)
    simp only [round_half_even, hfeq]
    split_ifs <;> first | omega | (exfalso; linarith)

lemma round3_mono {a b : ℚ} (h : a ≤ b) : round3 a ≤ round3 b := by
  have := round_half_even_mono (a := a * 1000) (b := b * 1000) (by linarith)
  have c : ((round_half_even (a * 1000) : ℚ)) ≤ (round_half_even (b * 1000) : ℚ) := by
    exact_mod_cast this
  simp only [round3]
  linarith

lemma score_ge_trans (a b c : TimeSlot) :
    score_ge a b = true → score_ge b c = true → score_ge a c = true := by
  simp only [score_ge, decide_eq_true_eq]
  intro hab hbc
  exact le_trans hbc hab

lemma score_ge_total (a b : TimeSlot) :
    (score_ge a b || score_ge b a) = true := by
  simp only [score_ge, Bool.or_eq_true, decide_eq_true_eq]
  exact le_total _ _

lemma init_length : init_time_slots.length = 42 := by decide

lemma calculate_base_score_bounds (day : String) (hour : ℤ) :
    0.5 ≤ calculate_base_score day hour ∧ calculate_base_score day hour ≤ 0.85 := by
  simp only [calculate_base_score]
  split_ifs <;> constructor <;> norm_num [min_def]

/-- `base_engagement` of every catalog slot comes from
`calculate_base_score` applied to its own `day` and `start_hour`. -/
lemma init_base_eq :
    ∀ t ∈ init_time_slots,
      t.base_engagement = calculate_base_score t.day t.start_hour := by
  intro t ht
  simp only [init_time_slots, List.mem_flatMap, List.mem_map] at ht
  obtain ⟨day, -, tr, -, rfl⟩ := ht
  rfl

lemma init_base_bounds :
    ∀ t ∈ init_time_slots, 0.5 ≤ t.base_engagement ∧ t.base_engagement ≤ 0.85 := by
  intro t ht
  rw [init_base_eq t ht]
  exact calculate_base_score_bounds t.day t.start_hour

lemma init_day_mem : ∀ t ∈ init_time_slots, t.day ∈ valid_days := by decide

lemma init_time_mem : ∀ t ∈ init_time_slots, t.time_range ∈ valid_times := by
  decide

end PostingScheduler

namespace PostingScheduler

lemma calculate_optimal_times_snd (ts : List TimeSlot) (sr : Option ℚ)
    (hist : List EngagementRecord) (cur : ℤ) (jitter : ℕ → ℚ) :
    (calculate_optimal_times ts sr hist cur jitter).2 =
      scored_slots ts sr hist cur jitter := rfl

lemma calculate_optimal_times_fst (ts : List TimeSlot) (sr : Option ℚ)
    (hist : List EngagementRecord) (cur : ℤ) (jitter : ℕ → ℚ) :
    (calculate_optimal_times ts sr hist cur jitter).1 =
      (((scored_slots ts sr hist cur jitter).mergeSort score_ge).take 5).map
        (fun slot =>
          { day := slot.day
            time := slot.time_range
            score := round3 (slot_score slot)
            recommendation := get_recommendation_text (slot_score slot) }) := rfl

/-- For every day name and start hour, the code's base score agrees with
the spec-worded formula `min (day base + time bonus) 0.95`. -/
lemma calculate_base_score_spec (day : String) (hour : ℤ) :
    calculate_base_score day hour =
      min (specDayBase day + specTimeBonus hour) 0.95 := by
  simp only [calculate_base_score, specDayBase, specTimeBonus]
  split_ifs <;> norm_num

/-- A stable sort leaves any run of mutually tied elements in its
original relative order: filtering the sorted list by a predicate that
only selects mutually tied elements gives the filter of the input. -/
lemma mergeSort_filter_stable (l : List TimeSlot) (p : TimeSlot → Bool)
    (hp : ∀ a b, p a = true → p b = true → score_ge a b = true) :
    (l.mergeSort score_ge).filter p = l.filter p := by
  have hpair : (l.filter p).Pairwise (fun a b => score_ge a b = true) := by
    apply List.pairwise_of_forall_mem_list
    intro a ha b hb
    exact hp a b (List.mem_filter.mp ha).2 (List.mem_filter.mp hb).2
  have hsub : (l.filter p).Sublist (l.mergeSort score_ge) :=
    List.sublist_mergeSort score_ge_trans score_ge_total hpair (List.filter_sublist l)
  have h1 : ((l.filter p).filter p).Sublist ((l.mergeSort score_ge).filter p) :=
    List.Sublist.filter p hsub
  rw [List.filter_filter] at h1
  have h2 : (l.filter p).Sublist ((l.mergeSort score_ge).filter p) := by
    have : (fun a => p a && p a) = p := by
      funext a
      cases p a <;> rfl
    rwa [this] at h1
  have hlen : ((l.mergeSort score_ge).filter p).length = (l.filter p).length :=
    ((List.mergeSort_perm l score_ge).filter p).length_eq
  exact (h2.eq_of_length hlen.symm).symm

/-- C7: initialization builds exactly 42 slots, uniquely keyed by
(day, time_range), and every slot's base engagement is the spec's
day base plus time-of-day bonus, clamped at the 0.95 ceiling.  (The
catalog is a deterministic constant, so repeated initializations are
identical by construction.) -/
theorem C7_static_catalog :
    init_time_slots.length = 42 ∧
    (init_time_slots.map fun s => (s.day, s.time_range)).Nodup ∧
    ∀ s ∈ init_time_slots,
      s.base_engagement = min (specDayBase s.day + specTimeBonus s.start_hour) 0.95 := by
  refine ⟨by decide, by decide, ?_⟩
  intro s hs
  rw [init_base_eq s hs, calculate_base_score_spec]

/-- C1: whenever the computed history adjustment is `some h`, the i-th
slot stored by a scoring call with overall sentiment `s` carries
`sentiment_adjustment = s * 0.2` and the clamp to [0.1, 0.99] of the raw
blend `base_engagement * 0.6 + (s * 0.2) * 0.3 + h * 0.1 + j`, for a
per-slot jitter `j` in [-0.05, 0.05]. -/
theorem C1_blend_formula (s h : ℚ) (engagement_history : List EngagementRecord)
    (current_hour : ℤ) (jitter : ℕ → ℚ)
    (hj : ∀ n, -0.05 ≤ jitter n ∧ jitter n ≤ 0.05)
    (hh : history_adjustment_of current_hour engagement_history = some h)
    (i : ℕ) :
    ∃ j : ℚ, -0.05 ≤ j ∧ j ≤ 0.05 ∧
      ((calculate_optimal_times init_time_slots (some s) engagement_history
          current_hour jitter).2)[i]? =
        init_time_slots[i]?.map fun slot =>
          { slot with
            score := some (max 0.1 (min 0.99
              (slot.base_engagement * 0.6 + (s * 0.2) * 0.3 + h * 0.1 + j)))
            sentiment_adjustment := s * 0.2 } := by
  refine ⟨jitter i, (hj i).1, (hj i).2, ?_⟩
  rw [calculate_optimal_times_snd]
  simp only [scored_slots, Option.getD_some]
  rw [score_slots_getElem?, hh]
  simp [stored_score]

end PostingScheduler

namespace PostingScheduler

/-- Witness for C1: sentiment 1, empty history (adjustment 0), zero
jitter, slot 0. -/
theorem C1_blend_formula_witness :
    ∃ j : ℚ, -0.05 ≤ j ∧ j ≤ 0.05 ∧
      ((calculate_optimal_times init_time_slots (some 1) [] 0 (fun _ => 0)).2)[0]? =
        init_time_slots[0]?.map fun slot =>
          { slot with
            score := some (max 0.1 (min 0.99
              (slot.base_engagement * 0.6 + ((1 : ℚ) * 0.2) * 0.3 + 0 * 0.1 + j)))
            sentiment_adjustment := (1 : ℚ) * 0.2 } :=
  C1_blend_formula 1 0 [] 0 (fun _ => 0)
    (fun _ => by norm_num) (by norm_num [history_adjustment_of]) 0

lemma scored_slots_length (sr : Option ℚ) (hist : List EngagementRecord)
    (cur : ℤ) (jitter : ℕ → ℚ) :
    (scored_slots init_time_slots sr hist cur jitter).length = 42 := by
  simp only [scored_slots]
  rw [score_slots_length]
  decide

/-- C2: on the freshly initialized catalog, every call returns exactly
min(5, 42) = 5 records, each with a score in [0.1, 0.99], a valid
weekday name, and a valid two-hour window label. -/
theorem C2_output_shape (sr : Option ℚ) (hist : List EngagementRecord)
    (cur : ℤ) (jitter : ℕ → ℚ) :
    (calculate_optimal_times init_time_slots sr hist cur jitter).1.length = min 5 42 ∧
    ∀ r ∈ (calculate_optimal_times init_time_slots sr hist cur jitter).1,
      (0.1 ≤ r.score ∧ r.score ≤ 0.99) ∧ r.day ∈ valid_days ∧ r.time ∈ valid_times := by
  rw [calculate_optimal_times_fst]
  constructor
  · rw [List.length_map, List.length_take, List.length_mergeSort,
      scored_slots_length]
  · intro r hr
    simp only [List.mem_map] at hr
    obtain ⟨slot, hslot, rfl⟩ := hr
    have hmem : slot ∈ scored_slots init_time_slots sr hist cur jitter := by
      have h2 := List.mem_of_mem_take hslot
      rwa [List.mem_mergeSort] at h2
    simp only [scored_slots] at hmem
    obtain ⟨t, ht, n, rfl⟩ := score_slots_mem hmem
    have hb := stored_score_bounds t.base_engagement
      ((sr.getD 0) * 0.2) (history_adjustment_of cur hist) (jitter n)
    have hr3 := round3_bounds hb.1 hb.2
    exact ⟨hr3, init_day_mem t ht, init_time_mem t ht⟩

/-- C3 counterexample: a collection holding one well-formed record in
the 2-hour window and one malformed record (missing `hour_of_day`)
yields the mean over the well-formed record — the value 1, not the
claimed whole-call fallback 0.5. -/
theorem C3_counterexample :
    (⟨none, some 0⟩ : EngagementRecord).hour_of_day = none ∧
    calculate_history_adjustment 12
      [⟨some 12, some 1⟩, ⟨none, some 0⟩] = some 1 ∧
    some (1 : ℚ) ≠ some (0.5 : ℚ) := by
  refine ⟨rfl, ?_, by norm_num⟩
  rw [calculate_history_adjustment]
  rw [if_neg (by decide)]
  rw [if_neg (by decide)]
  simp only [similar_times_of, List.filter_cons, List.filter_nil]
  norm_num
  refine ⟨by simp, ?_⟩
  norm_num [List.filterMap_cons, List.filterMap_nil]

lemma length_filterMap_of_isSome {α β : Type} (f : α → Option β) :
    ∀ l : List α, (∀ r ∈ l, (f r).isSome = true) →
      (l.filterMap f).length = l.length := by
  intro l hl
  induction l with
  | nil => rfl
  | cons a rest ih =>
      have ha := hl a (List.mem_cons_self a rest)
      obtain ⟨b, hb⟩ := Option.isSome_iff_exists.mp ha
      rw [List.filterMap_cons, hb]
      simp only [List.length_cons]
      rw [ih fun r hr => hl r (List.mem_cons_of_mem a hr)]

end PostingScheduler

namespace PostingScheduler

/-- C3 (amended): the history-adjustment computation returns 0.0 on an
empty collection; on a nonempty well-formed collection it returns the
mean of `estimated_engagement` over the records within 2 hours of the
current hour, or 0.5 when that window is empty; the whole-call 0.5
fallback for malformed input occurs (only) when every record is missing
`hour_of_day` (the column itself is absent, raising `KeyError`); a
single record missing `hour_of_day` among others that have it is
skipped per-record (NaN fails the window comparison) rather than
triggering the whole-call fallback. -/
theorem C3_history_adjustment (cur : ℤ) (r0 : EngagementRecord)
    (hist : List EngagementRecord) :
    calculate_history_adjustment cur [] = some 0 ∧
    (hist ≠ [] →
      (∀ r ∈ hist, r.hour_of_day.isSome = true ∧
        r.estimated_engagement.isSome = true) →
      (similar_times_of cur hist = [] →
        calculate_history_adjustment cur hist = some 0.5) ∧
      (similar_times_of cur hist ≠ [] →
        calculate_history_adjustment cur hist =
          some ((((similar_times_of cur hist).filterMap
              (fun r => r.estimated_engagement)).sum : ℚ) /
            ((similar_times_of cur hist).length : ℚ)))) ∧
    (hist ≠ [] → (∀ r ∈ hist, r.hour_of_day = none) →
      calculate_history_adjustment cur hist = some 0.5) ∧
    (r0.hour_of_day = none →
      (∃ r ∈ hist, r.hour_of_day.isSome = true) →
      (∃ r ∈ hist, r.estimated_engagement.isSome = true) →
      calculate_history_adjustment cur (r0 :: hist) =
        calculate_history_adjustment cur hist) := by
  refine ⟨?_, ?_, ?_, ?_⟩
  · rw [calculate_history_adjustment, if_pos rfl]
    norm_num
  · intro hne hwf
    obtain ⟨r, hr⟩ := List.exists_mem_of_ne_nil hist hne
    have hany : hist.any (fun r => r.hour_of_day.isSome) = true :=
      List.any_eq_true.mpr ⟨r, hr, (hwf r hr).1⟩
    have hanye : hist.any (fun r => r.estimated_engagement.isSome) = true :=
      List.any_eq_true.mpr ⟨r, hr, (hwf r hr).2⟩
    constructor
    · intro hw
      simp [calculate_history_adjustment, hne, hany, hw]
    · intro hw
      have hwfw : ∀ r ∈ similar_times_of cur hist,
          (r.estimated_engagement).isSome = true := by
        intro x hx
        exact (hwf x (List.mem_of_mem_filter hx)).2
      have hlen := length_filterMap_of_isSome
        (fun r : EngagementRecord => r.estimated_engagement)
        (similar_times_of cur hist) hwfw
      have hvne : (similar_times_of cur hist).filterMap
          (fun r => r.estimated_engagement) ≠ [] := by
        intro hcon
        apply hw
        have := hlen
        rw [hcon] at this
        exact List.eq_nil_of_length_eq_zero this.symm
      simp [calculate_history_adjustment, hne, hany, hanye, hw, hvne, hlen]
  · intro hne hnone
    have hany : hist.any (fun r => r.hour_of_day.isSome) = false := by
      rw [List.any_eq_false]
      intro x hx
      rw [hnone x hx]
      simp
    simp [calculate_history_adjustment, hne, hany]
  · rintro h0 ⟨rh, hrh, hrhs⟩ ⟨re, hre, hres⟩
    have hne : hist ≠ [] := by
      rintro rfl
      simp at hrh
    have hfilter : similar_times_of cur (r0 :: hist) =
        similar_times_of cur hist := by
      simp [similar_times_of, List.filter_cons, h0]
    have hany : hist.any (fun r => r.hour_of_day.isSome) = true :=
      List.any_eq_true.mpr ⟨rh, hrh, hrhs⟩
    have hanye : hist.any (fun r => r.estimated_engagement.isSome) = true :=
      List.any_eq_true.mpr ⟨re, hre, hres⟩
    simp [calculate_history_adjustment, hne, hany, hanye, hfilter, h0]

/-- Witness for C3's amended statement: the per-record-skipping clause
at the concrete malformed record of the counterexample. -/
theorem C3_history_adjustment_witness :
    calculate_history_adjustment 12
        ((⟨none, some 0⟩ : EngagementRecord) :: [⟨some 12, some 1⟩]) =
      calculate_history_adjustment 12 [⟨some 12, some 1⟩] :=
  (C3_history_adjustment 12 ⟨none, some 0⟩ [⟨some 12, some 1⟩]).2.2.2 rfl
    ⟨⟨some 12, some 1⟩, List.mem_cons_self _ _, rfl⟩
    ⟨⟨some 12, some 1⟩, List.mem_cons_self _ _, rfl⟩

end PostingScheduler

namespace PostingScheduler

/-- C4: the returned list is sorted non-increasing by score; the full
42-slot list is sorted descending by score; and the sort is stable:
slots with any given (equal) score keep the insertion order they had in
the catalog-ordered scored list. -/
theorem C4_sorted_stable (sr : Option ℚ) (hist : List EngagementRecord)
    (cur : ℤ) (jitter : ℕ → ℚ) :
    (calculate_optimal_times init_time_slots sr hist cur jitter).1.Pairwise
      (fun a b => b.score ≤ a.score) ∧
    ((scored_slots init_time_slots sr hist cur jitter).mergeSort score_ge).Pairwise
      (fun a b => slot_score b ≤ slot_score a) ∧
    ∀ q : ℚ,
      ((scored_slots init_time_slots sr hist cur jitter).mergeSort score_ge).filter
          (fun s => decide (slot_score s = q)) =
        (scored_slots init_time_slots sr hist cur jitter).filter
          (fun s => decide (slot_score s = q)) := by
  have hsorted := List.sorted_mergeSort score_ge_trans score_ge_total
    (scored_slots init_time_slots sr hist cur jitter)
  have hsorted' : ((scored_slots init_time_slots sr hist cur
      jitter).mergeSort score_ge).Pairwise
        (fun a b => slot_score b ≤ slot_score a) := by
    refine hsorted.imp ?_
    intro a b hab
    simpa [score_ge] using hab
  refine ⟨?_, hsorted', ?_⟩
  · rw [calculate_optimal_times_fst, List.pairwise_map]
    have htake := List.Pairwise.sublist (List.take_sublist 5 _) hsorted'
    refine htake.imp ?_
    intro a b hab
    exact round3_mono hab
  · intro q
    apply mergeSort_filter_stable
    intro a b ha hb
    simp only [decide_eq_true_eq] at ha hb
    simp [score_ge, ha, hb]

/-- C5 counterexample: one scoring call with overall sentiment 1 on the
freshly initialized scheduler leaves the stored template's first slot
with `sentiment_adjustment = 0.2`, no longer its post-initialization
value 0 — the shallow `list.copy()` shares the slot dicts, which the
loop mutates. -/
theorem C5_counterexample :
    ((calculate_optimal_times init_time_slots (some 1) [] 12
        (fun _ => 0)).2.head?.map (fun s => s.sentiment_adjustment)) =
      some ((1 : ℚ) * 0.2) ∧
    (init_time_slots.head?.map fun s => s.sentiment_adjustment) =
      some (0 : ℚ) ∧
    (1 : ℚ) * 0.2 ≠ 0 := by
  refine ⟨?_, ?_, by norm_num⟩
  · rw [calculate_optimal_times_snd]
    simp only [scored_slots, Option.getD_some]
    rw [List.head?_eq_getElem?, score_slots_getElem?]
    have h0 : init_time_slots[0]? =
        some ⟨"Monday", "09:00-11:00", 9, calculate_base_score "Monday" 9,
          0.0, none⟩ := rfl
    rw [h0]
    rfl
  · have h0 : init_time_slots.head? =
        some ⟨"Monday", "09:00-11:00", 9, calculate_base_score "Monday" 9,
          0.0, none⟩ := rfl
    rw [h0, Option.map_some']
    norm_num

/-- C5 (amended): a scoring call preserves the stored template's
length, order and per-slot base data (`day`, `time_range`,
`start_hour`, `base_engagement`), but — the copy being shallow — it
mutates the shared slot dicts, overwriting every slot's
`sentiment_adjustment` with `overall_sentiment * 0.2` and writing a
`score` entry. -/
theorem C5_template_mutation (sr : Option ℚ) (hist : List EngagementRecord)
    (cur : ℤ) (jitter : ℕ → ℚ) :
    List.Forall₂ (fun t p => p.day = t.day ∧ p.time_range = t.time_range ∧
        p.start_hour = t.start_hour ∧ p.base_engagement = t.base_engagement ∧
        p.sentiment_adjustment = (sr.getD 0) * 0.2 ∧ p.score.isSome = true)
      init_time_slots
      (calculate_optimal_times init_time_slots sr hist cur jitter).2 := by
  rw [calculate_optimal_times_snd]
  simp only [scored_slots]
  exact score_slots_forall₂ _ _ _ 0 init_time_slots

/-- C6 counterexample: no input of the claimed adversarial family
(overall sentiment 1, uniform engagement 1 forcing a history adjustment
of 1) makes any slot's pre-clamp raw score exceed 0.99: the blend
weights cap it at 0.72. -/
theorem C6_counterexample :
    ¬ ∃ (hist : List EngagementRecord) (cur : ℤ) (jitter : ℕ → ℚ)
        (i : ℕ) (t : TimeSlot),
        (∀ n, -0.05 ≤ jitter n ∧ jitter n ≤ 0.05) ∧
        hist ≠ [] ∧ (∀ r ∈ hist, r.estimated_engagement = some 1) ∧
        history_adjustment_of cur hist = some 1 ∧
        init_time_slots[i]? = some t ∧
        0.99 < t.base_engagement * 0.6 + ((1 : ℚ) * 0.2) * 0.3 +
          (1 : ℚ) * 0.1 + jitter i := by
  rintro ⟨hist, cur, jitter, i, t, hj, -, -, -, ht, hgt⟩
  have hmem : t ∈ init_time_slots := by
    obtain ⟨hlt, hEq⟩ := List.getElem?_eq_some_iff.mp ht
    exact hEq ▸ List.getElem_mem hlt
  have hb := (init_base_bounds t hmem).2
  have hji := (hj i).2
  linarith

/-- C6 (amended): with overall sentiment 1 and a history forcing the
adjustment to 1, every slot's raw blend is at most 0.72, so the top
clamp never fires: the stored score equals the raw blend itself. -/
theorem C6_no_top_clamp (hist : List EngagementRecord) (cur : ℤ)
    (jitter : ℕ → ℚ) (i : ℕ) (t : TimeSlot)
    (hj : ∀ n, -0.05 ≤ jitter n ∧ jitter n ≤ 0.05)
    (_hall : ∀ r ∈ hist, r.estimated_engagement = some 1)
    (hh : history_adjustment_of cur hist = some 1)
    (ht : init_time_slots[i]? = some t) :
    t.base_engagement * 0.6 + ((1 : ℚ) * 0.2) * 0.3 + (1 : ℚ) * 0.1 +
        jitter i ≤ 0.72 ∧
    (scored_slots init_time_slots (some 1) hist cur jitter)[i]? =
      some { t with
             score := some (t.base_engagement * 0.6 + ((1 : ℚ) * 0.2) * 0.3 +
               (1 : ℚ) * 0.1 + jitter i)
             sentiment_adjustment := (1 : ℚ) * 0.2 } := by
  have hmem : t ∈ init_time_slots := by
    obtain ⟨hlt, hEq⟩ := List.getElem?_eq_some_iff.mp ht
    exact hEq ▸ List.getElem_mem hlt
  have hb := init_base_bounds t hmem
  have hji := hj i
  constructor
  · linarith [hb.2, hji.2]
  · simp only [scored_slots, Option.getD_some]
    rw [score_slots_getElem?, hh, ht, Option.map_some']
    have hstored : stored_score t.base_engagement ((1 : ℚ) * 0.2) (some 1)
        (jitter (0 + i)) =
        t.base_engagement * 0.6 + ((1 : ℚ) * 0.2) * 0.3 + (1 : ℚ) * 0.1 +
          jitter i := by
      simp only [stored_score, Nat.zero_add]
      rw [min_eq_right (by linarith [hb.2, hji.2])]
      rw [max_eq_right (by linarith [hb.1, hji.1])]
    rw [hstored]

end PostingScheduler

namespace PostingScheduler

/-- Witness for C6's amended statement: one engagement record at the
current hour with engagement 1, zero jitter, catalog slot 0. -/
theorem C6_no_top_clamp_witness :
    (⟨"Monday", "09:00-11:00", 9, calculate_base_score "Monday" 9, 0.0, none⟩ :
        TimeSlot).base_engagement * 0.6 + ((1 : ℚ) * 0.2) * 0.3 +
        (1 : ℚ) * 0.1 + (0 : ℚ) ≤ 0.72 ∧
    (scored_slots init_time_slots (some 1)
        [⟨some 10, some 1⟩] 10 (fun _ => 0))[0]? =
      some { (⟨"Monday", "09:00-11:00", 9, calculate_base_score "Monday" 9,
          0.0, none⟩ : TimeSlot) with
             score := some ((⟨"Monday", "09:00-11:00", 9,
                 calculate_base_score "Monday" 9, 0.0, none⟩ :
                   TimeSlot).base_engagement * 0.6 + ((1 : ℚ) * 0.2) * 0.3 +
               (1 : ℚ) * 0.1 + (0 : ℚ))
             sentiment_adjustment := (1 : ℚ) * 0.2 } :=
  C6_no_top_clamp [⟨some 10, some 1⟩] 10 (fun _ => 0) 0
    ⟨"Monday", "09:00-11:00", 9, calculate_base_score "Monday" 9, 0.0, none⟩
    (fun _ => by norm_num) (by simp)
    (by
      rw [history_adjustment_of, if_neg (by decide)]
      rw [calculate_history_adjustment]
      rw [if_neg (by decide), if_neg (by decide)]
      simp only [similar_times_of, List.filter_cons, List.filter_nil]
      norm_num
      refine ⟨by simp, ?_⟩
      norm_num [List.filterMap_cons, List.filterMap_nil])
    rfl

lemma head?_filter_eq_find? {α : Type} (p : α → Bool) :
    ∀ l : List α, (l.filter p).head? = l.find? p := by
  intro l
  induction l with
  | nil => rfl
  | cons a rest ih =>
      by_cases hpa : p a = true
      · rw [List.filter_cons, if_pos hpa, List.find?_cons_of_pos rest hpa]
        rfl
      · rw [List.filter_cons, if_neg hpa, List.find?_cons_of_neg rest hpa]
        exact ih

end PostingScheduler

namespace PostingScheduler

/-- The head of a stable descending sort is the first input element
attaining the maximal score. -/
lemma head_mergeSort_first_max (B : List TimeSlot) (m : TimeSlot) (q : ℚ)
    (hfind : B.find? (fun s => decide (slot_score s = q)) = some m)
    (hmax : ∀ x ∈ B, slot_score x ≤ q) :
    (B.mergeSort score_ge).head? = some m := by
  have hmB : m ∈ B := List.mem_of_find?_eq_some hfind
  have hpm : slot_score m = q := by
    have := List.find?_some hfind
    simpa using this
  have hne : B.mergeSort score_ge ≠ [] := by
    intro hnil
    have hl : (B.mergeSort score_ge).length = B.length :=
      List.length_mergeSort B
    rw [hnil] at hl
    have hBnil : B = [] := List.eq_nil_of_length_eq_zero hl.symm
    rw [hBnil] at hmB
    simp at hmB
  obtain ⟨h, t, hst⟩ := List.exists_cons_of_ne_nil hne
  have hsorted := List.sorted_mergeSort score_ge_trans score_ge_total B
  have hmemh : h ∈ B := by
    refine (@List.mem_mergeSort TimeSlot score_ge h B).mp ?_
    rw [hst]
    exact List.mem_cons_self _ _
  have hhle : slot_score h ≤ q := hmax h hmemh
  have hhge : q ≤ slot_score h := by
    have hm_sorted : m ∈ B.mergeSort score_ge := List.mem_mergeSort.mpr hmB
    rw [hst] at hm_sorted
    rcases List.mem_cons.mp hm_sorted with rfl | hmt
    · exact le_of_eq hpm.symm
    · rw [hst] at hsorted
      have hrel := List.rel_of_pairwise_cons hsorted hmt
      simp only [score_ge, decide_eq_true_eq] at hrel
      calc q = slot_score m := hpm.symm
        _ ≤ slot_score h := hrel
  have hq : slot_score h = q := le_antisymm hhle hhge
  have hstab := mergeSort_filter_stable B (fun s => decide (slot_score s = q))
    (by
      intro a b ha hb
      simp only [decide_eq_true_eq] at ha hb
      simp [score_ge, ha, hb])
  have hfil : ((B.mergeSort score_ge).filter
      (fun s => decide (slot_score s = q))).head? = some h := by
    rw [hst, List.filter_cons, if_pos (by simp [hq])]
    rfl
  rw [hstab, head?_filter_eq_find?, hfind] at hfil
  rw [hst, List.head?_cons]
  exact hfil.symm

/-- C9: with overall sentiment 0, an empty engagement history, and the
per-slot jitter held at 0, the first returned record is a midweek
morning slot: its day is in Tuesday/Wednesday/Thursday and its time
window is 09:00-11:00 (concretely Tuesday, the first of the six tied
top scorers in catalog order). -/
theorem C9_top_slot (cur : ℤ) :
    ∃ r, (calculate_optimal_times init_time_slots (some 0) [] cur
        (fun _ => 0)).1.head? = some r ∧
      r.day ∈ (["Tuesday", "Wednesday", "Thursday"] : List String) ∧
      r.time = "09:00-11:00" := by
  have h1 : history_adjustment_of cur [] = some 0 := by
    norm_num [history_adjustment_of]
  have hAB : scored_slots init_time_slots (some 0) [] cur (fun _ => 0) =
      score_slots 0 (some 0) (fun _ => 0) 0 init_time_slots := by
    simp only [scored_slots, Option.getD_some, h1]
    norm_num
  have hbase_tue : calculate_base_score "Tuesday" 9 = 0.85 := by
    simp +decide only [calculate_base_score]
    norm_num [min_def]
  have h6 : (score_slots 0 (some 0) (fun _ => 0) 0 init_time_slots)[6]? =
      some ⟨"Tuesday", "09:00-11:00", 9, calculate_base_score "Tuesday" 9, 0,
        some (stored_score (calculate_base_score "Tuesday" 9) 0 (some 0) 0)⟩ := by
    rw [score_slots_getElem?]
    rfl
  have hlen : (score_slots 0 (some 0) (fun _ => 0) 0
      init_time_slots).length = 42 := by
    rw [score_slots_length]
    decide
  have hBval : ∀ (k : ℕ) (slot : TimeSlot),
      init_time_slots[k]? = some slot →
      ∀ (hk : k < (score_slots 0 (some 0) (fun _ => 0) 0
          init_time_slots).length),
        (score_slots 0 (some 0) (fun _ => 0) 0 init_time_slots)[k] =
          { slot with
            score := some (stored_score slot.base_engagement 0 (some 0) 0)
            sentiment_adjustment := 0 } := by
    intro k slot hks hklt
    rw [List.getElem_eq_iff, score_slots_getElem?, hks, Option.map_some']
  have hfind : (score_slots 0 (some 0) (fun _ => 0) 0 init_time_slots).find?
      (fun s => decide (slot_score s = 51/100)) =
      some ⟨"Tuesday", "09:00-11:00", 9, calculate_base_score "Tuesday" 9, 0,
        some (stored_score (calculate_base_score "Tuesday" 9) 0 (some 0) 0)⟩ := by
    rw [List.find?_eq_some_iff_getElem]
    refine ⟨?_, 6, by omega, ?_, ?_⟩
    · simp only [slot_score, Option.getD_some, stored_score, hbase_tue,
        decide_eq_true_eq]
      norm_num [min_def, max_def]
    · obtain ⟨hlt, hEq⟩ := List.getElem?_eq_some_iff.mp h6
      exact hEq
    · intro j hj
      interval_cases j
      · rw [hBval 0 ⟨"Monday", "09:00-11:00", 9,
          calculate_base_score "Monday" 9, 0.0, none⟩ rfl (by omega)]
        simp +decide [slot_score, stored_score, calculate_base_score,
          Bool.not_eq_true', decide_eq_false_iff_not]
        norm_num [min_def, max_def]
      · rw [hBval 1 ⟨"Monday", "11:00-13:00", 11,
          calculate_base_score "Monday" 11, 0.0, none⟩ rfl (by omega)]
        simp +decide [slot_score, stored_score, calculate_base_score,
          Bool.not_eq_true', decide_eq_false_iff_not]
        norm_num [min_def, max_def]
      · rw [hBval 2 ⟨"Monday", "13:00-15:00", 13,
          calculate_base_score "Monday" 13, 0.0, none⟩ rfl (by omega)]
        simp +decide [slot_score, stored_score, calculate_base_score,
          Bool.not_eq_true', decide_eq_false_iff_not]
        norm_num [min_def, max_def]
      · rw [hBval 3 ⟨"Monday", "15:00-17:00", 15,
          calculate_base_score "Monday" 15, 0.0, none⟩ rfl (by omega)]
        simp +decide [slot_score, stored_score, calculate_base_score,
          Bool.not_eq_true', decide_eq_false_iff_not]
        norm_num [min_def, max_def]
      · rw [hBval 4 ⟨"Monday", "17:00-19:00", 17,
          calculate_base_score "Monday" 17, 0.0, none⟩ rfl (by omega)]
        simp +decide [slot_score, stored_score, calculate_base_score,
          Bool.not_eq_true', decide_eq_false_iff_not]
        norm_num [min_def, max_def]
      · rw [hBval 5 ⟨"Monday", "19:00-21:00", 19,
          calculate_base_score "Monday" 19, 0.0, none⟩ rfl (by omega)]
        simp +decide [slot_score, stored_score, calculate_base_score,
          Bool.not_eq_true', decide_eq_false_iff_not]
        norm_num [min_def, max_def]
  have hhead := head_mergeSort_first_max _ _ _ hfind
    (by
      intro x hx
      obtain ⟨t, ht, n, rfl⟩ := score_slots_mem hx
      have hb := (init_base_bounds t ht).2
      simp only [slot_score, Option.getD_some, stored_score]
      have hmin : min 0.99 (t.base_engagement * 0.6 + 0 * 0.3 + 0 * 0.1 +
          (fun _ => (0 : ℚ)) n) ≤ 51/100 := by
        refine le_trans (min_le_right _ _) ?_
        simp only
        linarith
      refine max_le (by norm_num) hmin)
  obtain ⟨ys, hys⟩ := List.head?_eq_some_iff.mp hhead
  refine ⟨⟨"Tuesday", "09:00-11:00",
    round3 (slot_score ⟨"Tuesday", "09:00-11:00", 9,
      calculate_base_score "Tuesday" 9, 0,
      some (stored_score (calculate_base_score "Tuesday" 9) 0 (some 0) 0)⟩),
    get_recommendation_text (slot_score ⟨"Tuesday", "09:00-11:00", 9,
      calculate_base_score "Tuesday" 9, 0,
      some (stored_score (calculate_base_score "Tuesday" 9) 0 (some 0) 0)⟩)⟩,
    ?_, by simp, rfl⟩
  rw [calculate_optimal_times_fst, hAB, hys, List.take_succ_cons,
    List.map_cons, List.head?_cons]

end PostingScheduler

namespace PostingScheduler

/-- C8: each returned record carries the pre-rounding score's
recommendation text and the score rounded to 3 decimals; the text
thresholds are ≥0.8 Excellent, [0.7,0.8) Good, [0.6,0.7) Moderate,
below 0.6 Lower, with 0.8 itself Excellent and 0.7999 Good. -/
theorem C8_recommend_text (sr : Option ℚ) (hist : List EngagementRecord)
    (cur : ℤ) (jitter : ℕ → ℚ) :
    List.Forall₂ (fun slot r => r.day = slot.day ∧ r.time = slot.time_range ∧
        r.score = round3 (slot_score slot) ∧
        r.recommendation = get_recommendation_text (slot_score slot))
      (((scored_slots init_time_slots sr hist cur jitter).mergeSort
          score_ge).take 5)
      (calculate_optimal_times init_time_slots sr hist cur jitter).1 ∧
    (∀ q : ℚ,
      (0.8 ≤ q → get_recommendation_text q =
        "Excellent time to post - high expected engagement") ∧
      (0.7 ≤ q ∧ q < 0.8 → get_recommendation_text q =
        "Good time to post - above average engagement expected") ∧
      (0.6 ≤ q ∧ q < 0.7 → get_recommendation_text q =
        "Moderate time - average engagement expected") ∧
      (q < 0.6 → get_recommendation_text q =
        "Lower priority - consider other time slots first")) ∧
    get_recommendation_text 0.8 =
      "Excellent time to post - high expected engagement" ∧
    get_recommendation_text 0.7999 =
      "Good time to post - above average engagement expected" := by
  refine ⟨?_, ?_, ?_, ?_⟩
  · rw [calculate_optimal_times_fst, List.forall₂_map_right_iff,
      List.forall₂_same]
    exact fun x _ => ⟨rfl, rfl, rfl, rfl⟩
  · intro q
    refine ⟨fun hq => ?_, fun hq => ?_, fun hq => ?_, fun hq => ?_⟩
    · rw [get_recommendation_text, if_pos hq]
    · rw [get_recommendation_text, if_neg (not_le.mpr hq.2), if_pos hq.1]
    · rw [get_recommendation_text, if_neg (not_le.mpr (by linarith [hq.2])),
        if_neg (not_le.mpr hq.2), if_pos hq.1]
    · rw [get_recommendation_text, if_neg (not_le.mpr (by linarith)),
        if_neg (not_le.mpr (by linarith)), if_neg (not_le.mpr hq)]
  · rw [get_recommendation_text, if_pos (by norm_num)]
  · rw [get_recommendation_text, if_neg (by norm_num), if_pos (by norm_num)]

/-- Witness for C8: the two boundary evaluations at a concrete call. -/
theorem C8_recommend_text_witness :
    get_recommendation_text 0.8 =
      "Excellent time to post - high expected engagement" ∧
    get_recommendation_text 0.7999 =
      "Good time to post - above average engagement expected" :=
  ⟨(C8_recommend_text none [] 0 (fun _ => 0)).2.2.1,
   (C8_recommend_text none [] 0 (fun _ => 0)).2.2.2⟩

/-- C10: a sentiment-summary without the `overall_sentiment` key is
read as 0 by `.get('overall_sentiment', 0)`: the call is total (no
error path exists) and returns exactly what it returns for an explicit
overall sentiment of 0, with a sentiment adjustment of 0.0 stored on
every slot. -/
theorem C10_missing_sentiment_key (hist : List EngagementRecord) (cur : ℤ)
    (jitter : ℕ → ℚ) :
    calculate_optimal_times init_time_slots none hist cur jitter =
      calculate_optimal_times init_time_slots (some 0) hist cur jitter ∧
    List.Forall (fun s => s.sentiment_adjustment = 0)
      ((calculate_optimal_times init_time_slots none hist cur jitter).2) := by
  refine ⟨rfl, ?_⟩
  rw [calculate_optimal_times_snd]
  simp only [scored_slots, Option.getD_none]
  rw [List.forall_iff_forall_mem]
  intro x hx
  obtain ⟨t, ht, n, rfl⟩ := score_slots_mem hx
  norm_num

end PostingScheduler
